import Mathlib

/-!
Verification development for the spidermonkey code-search engine.

The definitions below are a shallow embedding of the Rust sources:
  * `src/search_engine/src/lib.rs` — `CodeSearchEngine` (fields `index`,
    `lines_map`, `file_hashes`), `get_file_hashes`, `new`, `search`,
    `read_lines`, `reload`;
  * `src/spidermonkey/src/main.rs` — `search_handler`.

The external Text Index (tantivy) is modelled at its interface: an index is a
list of `Doc` values ({path, 1-based line, body}); `add_document` appends,
`delete_term` on the path field removes every document with that path, and a
query is an abstract predicate on documents (query parsing and evaluation are
external collaborators).  `HashMap` state is modelled by association lists
processed in iteration order; per-file I/O is modelled by a function
`String → Option (List String)` giving the lines of a readable file (`none`
for a file whose open/read fails).  Places where the Rust code could panic
(underflowing subtraction, out-of-range slicing) are modelled with
`Except Unit`, so `.error ()` marks a panic.
-/

/-- One document of the Text Index: the `doc!(path, line, body)` added by
`CodeSearchEngine::new` and `CodeSearchEngine::reload`. -/
structure Doc where
  path : String
  line : Nat
  body : String
deriving DecidableEq

/-- One element of the JSON `results` array produced by
`CodeSearchEngine::search` (struct `SearchResult` with its flattened
`line_range`). -/
structure SearchResult where
  body : String
  path : String
  line : Nat
  range_start : Nat
  range_end : Nat
deriving DecidableEq

/-- The value serialized by the search endpoint on success (struct
`SearchResults`); elapsed wall-clock time is external, carried opaquely. -/
structure SearchResults where
  results : List SearchResult
  time : Nat
deriving DecidableEq

/-- Association-list lookup, the model of `HashMap::get`. -/
def alookup {α : Type} : List (String × α) → String → Option α
  | [], _ => none
  | (k, v) :: rest, p => if k = p then some v else alookup rest p

/-- Association-list insert-or-replace, the model of `HashMap::insert`. -/
def ainsert {α : Type} : List (String × α) → String → α → List (String × α)
  | [], k, v => [(k, v)]
  | (k0, v0) :: rest, k, v =>
      if k0 = k then (k, v) :: rest else (k0, v0) :: ainsert rest k v

/-- Association-list removal, the model of `HashMap::remove`. -/
def aerase {α : Type} : List (String × α) → String → List (String × α)
  | [], _ => []
  | (k0, v0) :: rest, k =>
      if k0 = k then aerase rest k else (k0, v0) :: aerase rest k

/-- Removing a list of keys one by one, the model of the
`for path in &missing_files { map.remove(path) }` loops in `reload`. -/
def eraseAll {α : Type} (m : List (String × α)) (ks : List String) : List (String × α) :=
  ks.foldl aerase m

/-- The full engine state: the committed Text Index contents, the
`lines_map` cache and the `file_hashes` fingerprint map of
`CodeSearchEngine`. -/
structure EngineState where
  index : List Doc
  lines_map : List (String × List String)
  file_hashes : List (String × String)
deriving DecidableEq

/-- The block of documents emitted for one file: one per line with 1-based
numbering (`line_field => num as i64 + 1`). -/
def docsFor (path : String) (ls : List String) : List Doc :=
  ls.enum.map (fun nl => { path := path, line := nl.1 + 1, body := nl.2 })

/-- One step of the result-collection loop of `get_file_hashes`: only an
`Ok` checksum is inserted (`if let Ok(Ok((path, hash))) = handle.await`). -/
def hashStep (checksum : String → Option String)
    (acc : List (String × String)) (p : String) : List (String × String) :=
  match checksum p with
  | some h => ainsert acc p h
  | none => acc

/-- The `hashes.insert(path, hash)` collection loop of `get_file_hashes`:
a file whose checksum computation fails contributes nothing. -/
def get_file_hashes (paths : List String) (checksum : String → Option String) :
    List (String × String) :=
  paths.foldl (hashStep checksum) []

/-- The per-file indexing loop of `CodeSearchEngine::new`: for each hashed
path, open it, add one document per line and populate `lines_map`; a file
whose open fails is skipped (its hash stays recorded). -/
def buildLoop (readFile : String → Option (List String)) :
    EngineState → List String → EngineState
  | st, [] => st
  | st, p :: rest =>
    match readFile p with
    | some ls =>
        buildLoop readFile
          { st with
            index := st.index ++ docsFor p ls,
            lines_map := ainsert st.lines_map p ls }
          rest
    | none => buildLoop readFile st rest

/-- `CodeSearchEngine::new`: initial full build from the fingerprint map. -/
def build (hashes : List (String × String)) (readFile : String → Option (List String)) :
    EngineState :=
  buildLoop readFile
    { index := [], lines_map := [], file_hashes := hashes }
    (hashes.map Prod.fst)

/-- The `should_update` test of `reload`:
`match file_hashes.get(path) { Some(last) if last == hash => false, _ => true }`. -/
def should_update (old : List (String × String)) (path hash : String) : Bool :=
  match alookup old path with
  | some last => !(last == hash)
  | none => true

/-- The `missing_files` computation of `reload`: previously recorded paths
absent from the freshly computed fingerprint map. -/
def missingFiles (oldHashes hashes : List (String × String)) : List String :=
  (oldHashes.map Prod.fst).filter (fun p => !((hashes.map Prod.fst).contains p))

/-- The add/update loop of `reload` (lines 257–293 of `lib.rs`): for each
freshly hashed `(path, hash)`, skip it when the recorded fingerprint is
equal; otherwise record the new fingerprint, then try to open the file and,
on success, append one document per line and replace the cache entry.  The
returned list collects the documents passed to `writer.add_document`.  Note
that no prior documents of the path are deleted here. -/
def reloadLoop (readFile : String → Option (List String)) :
    EngineState → List (String × String) → EngineState × List Doc
  | st, [] => (st, [])
  | st, (path, hash) :: rest =>
    if should_update st.file_hashes path hash then
      let st1 := { st with file_hashes := ainsert st.file_hashes path hash }
      match readFile path with
      | some ls =>
          let ds := docsFor path ls
          let st2 :=
            { st1 with
              index := st1.index ++ ds,
              lines_map := ainsert st1.lines_map path ls }
          let rec2 := reloadLoop readFile st2 rest
          (rec2.1, ds ++ rec2.2)
      | none => reloadLoop readFile st1 rest
    else
      reloadLoop readFile st rest

/-- `CodeSearchEngine::reload`: run the add/update loop, then delete every
document of each missing path (`writer.delete_term` on the path field) and
drop the missing paths from both maps; the commit makes the result visible.
Returns the new state, the added documents and the deleted paths. -/
def reload (st : EngineState) (hashes : List (String × String))
    (readFile : String → Option (List String)) :
    EngineState × List Doc × List String :=
  let missing := missingFiles st.file_hashes hashes
  let looped := reloadLoop readFile st hashes
  let st2 :=
    { looped.1 with
      index := looped.1.index.filter (fun d => !(missing.contains d.path)),
      file_hashes := eraseAll looped.1.file_hashes missing,
      lines_map := eraseAll looped.1.lines_map missing }
  (st2, looped.2, missing)

/-- `CodeSearchEngine::read_lines`: snippet window around a matched line.
`start` uses saturating subtraction; `line - 1 + n` and `total - 1` are
unchecked Rust subtractions and `file_lines[start..=end]` is unchecked
slicing, so those underflow/out-of-range cases are modelled as `.error ()`
(a panic). -/
def read_lines (lines_map : List (String × List String))
    (file_path : String) (line n : Nat) :
    Except Unit (Option (String × Nat × Nat)) :=
  match alookup lines_map file_path with
  | none => Except.ok none
  | some file_lines =>
    let total := file_lines.length
    if line > total then Except.ok none
    else if line = 0 ∨ total = 0 then Except.error ()
    else
      let s := line - 1 - n
      let e := min (line - 1 + n) (total - 1)
      if e < total ∧ s ≤ e + 1 then
        Except.ok (some
          (String.intercalate "\n" ((file_lines.drop s).take (e + 1 - s)),
           s + 1, e + 1))
      else Except.error ()

/-- The result-collection loop of `CodeSearchEngine::search`: for each
matching document look up its snippet; a `None` from `read_lines` drops the
match silently, a panic aborts the search. -/
def collectResults (lines_map : List (String × List String)) :
    List Doc → Except Unit (List SearchResult)
  | [] => Except.ok []
  | d :: ds =>
    match read_lines lines_map d.path d.line 3 with
    | Except.error e => Except.error e
    | Except.ok none => collectResults lines_map ds
    | Except.ok (some (snip, s, e)) =>
        match collectResults lines_map ds with
        | Except.error e2 => Except.error e2
        | Except.ok rest =>
            Except.ok
              ({ body := snip, path := d.path, line := d.line,
                 range_start := s, range_end := e } :: rest)

/-- `CodeSearchEngine::search` after query parsing: the Text Index returns
the documents matched by the (externally evaluated) query predicate, and
each match is turned into a `SearchResult` with a 3-line context window. -/
def search (st : EngineState) (q : Doc → Bool) : Except Unit (List SearchResult) :=
  collectResults st.lines_map (st.index.filter q)

/-- JSON values, for the bodies produced by the HTTP layer. -/
inductive Json where
  | str (s : String)
  | num (n : Nat)
  | arr (xs : List Json)
  | obj (fields : List (String × Json))

/-- Whether a JSON object has a field with the given key. -/
def jsonHasKey (k : String) : Json → Bool
  | Json.obj fs => fs.any (fun f => f.1 == k)
  | _ => false

/-- Serde serialization of one `SearchResult` (fields in declaration
order: body, path, line, line_range). -/
def jsonOfResult (r : SearchResult) : Json :=
  Json.obj
    [("body", Json.str r.body),
     ("path", Json.str r.path),
     ("line", Json.num r.line),
     ("line_range",
        Json.obj [("start", Json.num r.range_start), ("end", Json.num r.range_end)])]

/-- Serde serialization of `SearchResults`: `{"results": [...], "time": t}`. -/
def jsonOfSearchResults (r : SearchResults) : Json :=
  Json.obj
    [("results", Json.arr (r.results.map jsonOfResult)),
     ("time", Json.num r.time)]

/-- The whole of `CodeSearchEngine::search` including query parsing: a parse
failure propagates as an error (the `?` on `parse_query`); on success the
results are paired with the elapsed time. -/
def engineSearchFull (st : EngineState) (parsed : Except Unit (Doc → Bool))
    (elapsed : Nat) : Except Unit SearchResults :=
  match parsed with
  | Except.error e => Except.error e
  | Except.ok q =>
    match search st q with
    | Except.error e => Except.error e
    | Except.ok rs => Except.ok { results := rs, time := elapsed }

/-- `search_handler` of `main.rs`: a successful search is serialized in
full; any error from `search` is swallowed and answered with the literal
`json!({ "results": [] })` — an object with no `time` field. -/
def search_handler (outcome : Except Unit SearchResults) : Json :=
  match outcome with
  | Except.ok value => jsonOfSearchResults value
  | Except.error _ => Json.obj [("results", Json.arr [])]

/-- The views of one path inside the engine state: its recorded fingerprint. -/
def hashAt (st : EngineState) (p : String) : Option String :=
  alookup st.file_hashes p

/-- The cache view of one path: its `lines_map` entry. -/
def linesAt (st : EngineState) (p : String) : Option (List String) :=
  alookup st.lines_map p

/-- The Text Index view of one path: its live documents. -/
def docsAt (st : EngineState) (p : String) : List Doc :=
  st.index.filter (fun d => d.path == p)

/-- The classification condition under which `reload` re-indexes a path:
it is freshly hashed and `should_update` holds for it. -/
def addedOrModified (old cur : List (String × String)) (p : String) : Bool :=
  match alookup cur p with
  | some h => should_update old p h
  | none => false

/-- The classification condition under which `reload` deletes a path:
membership in its `missing_files` list. -/
def removedClass (old cur : List (String × String)) (p : String) : Bool :=
  (missingFiles old cur).contains p

/-- The classification condition under which `reload` leaves a path alone:
freshly hashed but `should_update` fails (equal fingerprints). -/
def unchangedClass (old cur : List (String × String)) (p : String) : Bool :=
  match alookup cur p with
  | some h => !(should_update old p h)
  | none => false

/-- Whether a matched document survives the `read_lines` filter of
`search`: its path cached and its line within the cached line count. -/
def keepDoc (lines_map : List (String × List String)) (d : Doc) : Bool :=
  match alookup lines_map d.path with
  | some ls => decide (1 ≤ d.line ∧ d.line ≤ ls.length)
  | none => false

/-- A one-file filesystem: `a.txt` holding the single line `old`. -/
def fsOld : String → Option (List String) :=
  fun p => if p = "a.txt" then some ["old"] else none

/-- The same file after its content changed to the single line `new`. -/
def fsNew : String → Option (List String) :=
  fun p => if p = "a.txt" then some ["new"] else none

/-- State after the initial build over `fsOld`. -/
def stOld : EngineState := build [("a.txt", "h1")] fsOld

/-- State after an incremental resync that sees the modified content
(fingerprint changed from `h1` to `h2`). -/
def stNew : EngineState := (reload stOld [("a.txt", "h2")] fsNew).1

/-- The empty engine state. -/
def stEmpty : EngineState := { index := [], lines_map := [], file_hashes := [] }

/-- The single search hit produced on `stOld` by a query matching `old`. -/
def resW : SearchResult :=
  { body := "old", path := "a.txt", line := 1, range_start := 1, range_end := 1 }

/-- The ghost hit produced on `stNew` by a query matching the old content. -/
def resW2 : SearchResult :=
  { body := "new", path := "a.txt", line := 1, range_start := 1, range_end := 1 }

/-- A filesystem where `a.txt` holds two lines, the second being `old2`. -/
def fsTwo : String → Option (List String) :=
  fun p => if p = "a.txt" then some ["l1", "old2"] else none

/-- State after the initial build over the two-line `a.txt`. -/
def stTwo : EngineState := build [("a.txt", "h1")] fsTwo

/-- State after a resync that shrank `a.txt` to the single line `new`:
the stale line-2 document outlives the one-line cache entry. -/
def stTwoNew : EngineState := (reload stTwo [("a.txt", "h2")] fsNew).1

/-- A checksum function that fails on every path except `a.txt`. -/
def csW : String → Option String :=
  fun q => if q = "a.txt" then some "h1" else none

/-! Association-list lemmas. -/

theorem alookup_ainsert {α : Type} (m : List (String × α)) (k : String) (v : α)
    (p : String) :
    alookup (ainsert m k v) p = if k = p then some v else alookup m p := by
  induction m with
  | nil =>
    by_cases hp : k = p <;> simp [ainsert, alookup, hp]
  | cons kv rest ih =>
    rcases kv with ⟨k0, v0⟩
    by_cases hk : k0 = k
    · subst hk
      by_cases hp : k0 = p <;> simp [ainsert, alookup, hp]
    · by_cases hp : k0 = p
      · subst hp
        have hkp : ¬ k = k0 := fun h => hk h.symm
        simp [ainsert, alookup, hk, hkp]
      · simp [ainsert, alookup, hk, hp, ih]

theorem alookup_aerase {α : Type} (m : List (String × α)) (k p : String) :
    alookup (aerase m k) p = if k = p then none else alookup m p := by
  induction m with
  | nil => simp [aerase, alookup]
  | cons kv rest ih =>
    rcases kv with ⟨k0, v0⟩
    by_cases hk : k0 = k
    · subst hk
      by_cases hp : k0 = p
      · subst hp
        simp [aerase, alookup, ih]
      · simp [aerase, alookup, hp, ih]
    · by_cases hp : k0 = p
      · subst hp
        have hkp : ¬ k = k0 := fun h => hk h.symm
        simp [aerase, alookup, hk, hkp]
      · simp [aerase, alookup, hk, hp, ih]

theorem alookup_eraseAll {α : Type} (ks : List String) (m : List (String × α))
    (p : String) :
    alookup (eraseAll m ks) p = if p ∈ ks then none else alookup m p := by
  induction ks generalizing m with
  | nil => simp [eraseAll]
  | cons k ks ih =>
    show alookup (eraseAll (aerase m k) ks) p = _
    rw [ih, alookup_aerase]
    by_cases hp : p ∈ ks
    · simp [hp]
    · by_cases hk : k = p
      · subst hk
        simp [hp]
      · have hpk : ¬ p = k := fun h => hk h.symm
        simp [hp, hk, hpk]

theorem alookup_eq_none_iff {α : Type} (m : List (String × α)) (p : String) :
    alookup m p = none ↔ p ∉ m.map Prod.fst := by
  induction m with
  | nil => simp [alookup]
  | cons kv rest ih =>
    rcases kv with ⟨k0, v0⟩
    by_cases hp : k0 = p
    · subst hp
      simp [alookup]
    · have hp2 : ¬ p = k0 := fun h => hp h.symm
      simp [alookup, hp, hp2, ih]

theorem alookup_isSome_iff {α : Type} (m : List (String × α)) (p : String) :
    (alookup m p).isSome = true ↔ p ∈ m.map Prod.fst := by
  constructor
  · intro hs
    by_contra hmem
    rw [(alookup_eq_none_iff m p).mpr hmem] at hs
    exact Bool.noConfusion hs
  · intro hmem
    rcases h : alookup m p with _ | v
    · exact absurd ((alookup_eq_none_iff m p).mp h) (by simp [hmem])
    · rfl

theorem mem_keys_of_alookup {α : Type} (m : List (String × α)) (p : String)
    (v : α) (h : alookup m p = some v) : p ∈ m.map Prod.fst :=
  (alookup_isSome_iff m p).mp (by simp [h])

theorem alookup_of_mem_nodup {α : Type} (m : List (String × α)) (p : String)
    (v : α) (hnd : (m.map Prod.fst).Nodup) (hmem : (p, v) ∈ m) :
    alookup m p = some v := by
  induction m with
  | nil => simp at hmem
  | cons kv rest ih =>
    rcases kv with ⟨k0, v0⟩
    rcases List.mem_cons.mp hmem with h | h
    · cases h
      simp [alookup]
    · have hk0 : ¬ k0 = p := by
        intro hk
        subst hk
        have hpm : k0 ∈ rest.map Prod.fst :=
          List.mem_map.mpr ⟨(k0, v), h, rfl⟩
        exact (List.nodup_cons.mp hnd).1 hpm
      simp only [alookup, hk0, if_false]
      exact ih (List.nodup_cons.mp hnd).2 h

/-! Lemmas about `should_update`, `missingFiles` and `docsFor`. -/

theorem should_update_eq_false_iff (m : List (String × String)) (p h : String) :
    should_update m p h = false ↔ alookup m p = some h := by
  rcases hm : alookup m p with _ | last
  · unfold should_update
    rw [hm]
    simp
  · unfold should_update
    rw [hm]
    constructor
    · intro hb
      have hl : last = h := by simpa using hb
      rw [hl]
    · intro hb
      injection hb with hl
      simp [hl]

theorem should_update_congr (m m2 : List (String × String)) (p h : String)
    (he : alookup m p = alookup m2 p) :
    should_update m p h = should_update m2 p h := by
  simp [should_update, he]

theorem mem_missingFiles_iff (old cur : List (String × String)) (p : String) :
    p ∈ missingFiles old cur ↔
      p ∈ old.map Prod.fst ∧ p ∉ cur.map Prod.fst := by
  simp [missingFiles, List.mem_filter, List.elem_iff]

theorem path_of_mem_docsFor (q : String) (ls : List String) (d : Doc)
    (h : d ∈ docsFor q ls) : d.path = q := by
  simp only [docsFor, List.mem_map] at h
  rcases h with ⟨nl, _, rfl⟩
  rfl

theorem docsFor_filter_ne (q p : String) (ls : List String) (hqp : ¬ q = p) :
    (docsFor q ls).filter (fun d => d.path == p) = [] := by
  refine List.filter_eq_nil_iff.mpr ?_
  intro d hd
  have hdp := path_of_mem_docsFor q ls d hd
  simp [hdp, hqp]

theorem docsFor_filter_self (p : String) (ls : List String) :
    (docsFor p ls).filter (fun d => d.path == p) = docsFor p ls := by
  refine List.filter_eq_self.mpr ?_
  intro d hd
  have hdp := path_of_mem_docsFor p ls d hd
  simp [hdp]

/-! Unfolding equations for the add/update loop of `reload`. -/

theorem reloadLoop_cons_skip (r : String → Option (List String)) (st : EngineState)
    (q g : String) (rest : List (String × String))
    (hsu : should_update st.file_hashes q g = false) :
    reloadLoop r st ((q, g) :: rest) = reloadLoop r st rest := by
  simp [reloadLoop, hsu]

theorem reloadLoop_cons_fail (r : String → Option (List String)) (st : EngineState)
    (q g : String) (rest : List (String × String))
    (hsu : should_update st.file_hashes q g = true) (hr : r q = none) :
    reloadLoop r st ((q, g) :: rest) =
      reloadLoop r { st with file_hashes := ainsert st.file_hashes q g } rest := by
  simp [reloadLoop, hsu, hr]

theorem reloadLoop_cons_read (r : String → Option (List String)) (st : EngineState)
    (q g : String) (rest : List (String × String)) (ls : List String)
    (hsu : should_update st.file_hashes q g = true) (hr : r q = some ls) :
    reloadLoop r st ((q, g) :: rest) =
      ((reloadLoop r
          { index := st.index ++ docsFor q ls,
            lines_map := ainsert st.lines_map q ls,
            file_hashes := ainsert st.file_hashes q g } rest).1,
       docsFor q ls ++
         (reloadLoop r
           { index := st.index ++ docsFor q ls,
             lines_map := ainsert st.lines_map q ls,
             file_hashes := ainsert st.file_hashes q g } rest).2) := by
  simp [reloadLoop, hsu, hr]

/-- A path that is not freshly hashed is untouched by the add/update loop. -/
theorem reloadLoop_not_mem (r : String → Option (List String))
    (hs : List (String × String)) (st : EngineState) (p : String)
    (hp : p ∉ hs.map Prod.fst) :
    hashAt (reloadLoop r st hs).1 p = hashAt st p ∧
    linesAt (reloadLoop r st hs).1 p = linesAt st p ∧
    docsAt (reloadLoop r st hs).1 p = docsAt st p := by
  revert hp
  induction hs generalizing st with
  | nil => exact fun _ => ⟨rfl, rfl, rfl⟩
  | cons qg rest ih =>
    intro hp
    rcases qg with ⟨q, g⟩
    have hq : ¬ q = p := fun h => hp (by simp [h])
    have hrest : p ∉ rest.map Prod.fst := fun h => hp (by simp [h])
    cases hsu : should_update st.file_hashes q g with
    | false =>
      rw [reloadLoop_cons_skip r st q g rest hsu]
      exact ih st hrest
    | true =>
      rcases hr : r q with _ | ls
      · rw [reloadLoop_cons_fail r st q g rest hsu hr]
        have hview := ih { st with file_hashes := ainsert st.file_hashes q g } hrest
        refine ⟨?_, hview.2.1, hview.2.2⟩
        rw [hview.1]
        show alookup (ainsert st.file_hashes q g) p = _
        rw [alookup_ainsert]
        simp [hq, hashAt]
      · rw [reloadLoop_cons_read r st q g rest ls hsu hr]
        have hview := ih
          { index := st.index ++ docsFor q ls,
            lines_map := ainsert st.lines_map q ls,
            file_hashes := ainsert st.file_hashes q g } hrest
        refine ⟨?_, ?_, ?_⟩
        · rw [hview.1]
          show alookup (ainsert st.file_hashes q g) p = _
          rw [alookup_ainsert]
          simp [hq, hashAt]
        · rw [hview.2.1]
          show alookup (ainsert st.lines_map q ls) p = _
          rw [alookup_ainsert]
          simp [hq, linesAt]
        · rw [hview.2.2]
          show (st.index ++ docsFor q ls).filter (fun d => d.path == p) = _
          rw [List.filter_append, docsFor_filter_ne q p ls hq, List.append_nil]
          rfl

/-- Per-path effect of the add/update loop on a freshly hashed path: the
fingerprint always becomes the fresh hash; cache entry and documents change
exactly when `should_update` held and the file could be read, in which case
the new documents are appended (the old ones are not removed). -/
theorem reloadLoop_mem (r : String → Option (List String))
    (hs : List (String × String)) (st : EngineState) (p h : String)
    (hnd : (hs.map Prod.fst).Nodup) (hp : alookup hs p = some h) :
    hashAt (reloadLoop r st hs).1 p = some h ∧
    linesAt (reloadLoop r st hs).1 p =
      (if should_update st.file_hashes p h = true then
         (match r p with
          | some ls => some ls
          | none => linesAt st p)
       else linesAt st p) ∧
    docsAt (reloadLoop r st hs).1 p =
      (if should_update st.file_hashes p h = true then
         (match r p with
          | some ls => docsAt st p ++ docsFor p ls
          | none => docsAt st p)
       else docsAt st p) := by
  revert hnd hp
  induction hs generalizing st with
  | nil =>
    intro hnd hp
    simp [alookup] at hp
  | cons qg rest ih =>
    intro hnd hp
    rcases qg with ⟨q, g⟩
    have hnd2 : q ∉ rest.map Prod.fst ∧ (rest.map Prod.fst).Nodup := by
      rw [List.map_cons, List.nodup_cons] at hnd
      exact hnd
    simp only [alookup] at hp
    by_cases hq : q = p
    · subst hq
      rw [if_pos rfl] at hp
      injection hp with hgh
      subst hgh
      cases hsu : should_update st.file_hashes q g with
      | false =>
        rw [reloadLoop_cons_skip r st q g rest hsu]
        have hview := reloadLoop_not_mem r rest st q hnd2.1
        refine ⟨?_, ?_, ?_⟩
        · rw [hview.1]
          exact (should_update_eq_false_iff st.file_hashes q g).mp hsu
        · rw [hview.2.1]
          rfl
        · rw [hview.2.2]
          rfl
      | true =>
        rcases hr : r q with _ | ls
        · rw [reloadLoop_cons_fail r st q g rest hsu hr]
          have hview := reloadLoop_not_mem r rest
            { st with file_hashes := ainsert st.file_hashes q g } q hnd2.1
          refine ⟨?_, ?_, ?_⟩
          · rw [hview.1]
            show alookup (ainsert st.file_hashes q g) q = some g
            rw [alookup_ainsert]
            simp
          · rw [hview.2.1]
            rfl
          · rw [hview.2.2]
            rfl
        · rw [reloadLoop_cons_read r st q g rest ls hsu hr]
          have hview := reloadLoop_not_mem r rest
            { index := st.index ++ docsFor q ls,
              lines_map := ainsert st.lines_map q ls,
              file_hashes := ainsert st.file_hashes q g } q hnd2.1
          refine ⟨?_, ?_, ?_⟩
          · rw [hview.1]
            show alookup (ainsert st.file_hashes q g) q = some g
            rw [alookup_ainsert]
            simp
          · rw [hview.2.1]
            show alookup (ainsert st.lines_map q ls) q = some ls
            rw [alookup_ainsert]
            simp
          · rw [hview.2.2]
            show (st.index ++ docsFor q ls).filter (fun d => d.path == q) =
              docsAt st q ++ docsFor q ls
            rw [List.filter_append, docsFor_filter_self]
            rfl
    · rw [if_neg hq] at hp
      cases hsu : should_update st.file_hashes q g with
      | false =>
        rw [reloadLoop_cons_skip r st q g rest hsu]
        exact ih st hnd2.2 hp
      | true =>
        rcases hr : r q with _ | ls
        · rw [reloadLoop_cons_fail r st q g rest hsu hr]
          have hfh : alookup (ainsert st.file_hashes q g) p = alookup st.file_hashes p := by
            rw [alookup_ainsert]
            simp [hq]
          have ihr := ih { st with file_hashes := ainsert st.file_hashes q g } hnd2.2 hp
          have hsu2 : should_update (ainsert st.file_hashes q g) p h =
              should_update st.file_hashes p h :=
            should_update_congr _ _ _ _ hfh
          refine ⟨ihr.1, ?_, ?_⟩
          · rw [ihr.2.1]
            show (if should_update (ainsert st.file_hashes q g) p h = true then _ else _) = _
            rw [hsu2]
            rfl
          · rw [ihr.2.2]
            show (if should_update (ainsert st.file_hashes q g) p h = true then _ else _) = _
            rw [hsu2]
            rfl
        · rw [reloadLoop_cons_read r st q g rest ls hsu hr]
          have hfh : alookup (ainsert st.file_hashes q g) p = alookup st.file_hashes p := by
            rw [alookup_ainsert]
            simp [hq]
          have ihr := ih
            { index := st.index ++ docsFor q ls,
              lines_map := ainsert st.lines_map q ls,
              file_hashes := ainsert st.file_hashes q g } hnd2.2 hp
          have hsu2 : should_update (ainsert st.file_hashes q g) p h =
              should_update st.file_hashes p h :=
            should_update_congr _ _ _ _ hfh
          have hlines : alookup (ainsert st.lines_map q ls) p = alookup st.lines_map p := by
            rw [alookup_ainsert]
            simp [hq]
          have hdocs : (st.index ++ docsFor q ls).filter (fun d => d.path == p) =
              st.index.filter (fun d => d.path == p) := by
            rw [List.filter_append, docsFor_filter_ne q p ls hq, List.append_nil]
          refine ⟨ihr.1, ?_, ?_⟩
          · rw [ihr.2.1]
            show (if should_update (ainsert st.file_hashes q g) p h = true then
                    (match r p with
                     | some ls2 => some ls2
                     | none => alookup (ainsert st.lines_map q ls) p)
                  else alookup (ainsert st.lines_map q ls) p) = _
            rw [hsu2, hlines]
            rfl
          · rw [ihr.2.2]
            show (if should_update (ainsert st.file_hashes q g) p h = true then
                    (match r p with
                     | some ls2 =>
                         (st.index ++ docsFor q ls).filter (fun d => d.path == p) ++
                           docsFor p ls2
                     | none => (st.index ++ docsFor q ls).filter (fun d => d.path == p))
                  else (st.index ++ docsFor q ls).filter (fun d => d.path == p)) = _
            rw [hsu2, hdocs]
            rfl

/-- Unfolding of the per-path document filter over a cons. -/
theorem filter_path_cons (d : Doc) (ds : List Doc) (p : String) :
    (d :: ds).filter (fun x => x.path == p) =
      if d.path = p then d :: ds.filter (fun x => x.path == p)
      else ds.filter (fun x => x.path == p) := by
  by_cases h : d.path = p <;> simp [List.filter_cons, h]

/-- Unfolding of the missing-paths document filter over a cons. -/
theorem filter_missing_cons (d : Doc) (ds : List Doc) (missing : List String) :
    (d :: ds).filter (fun x => !(missing.contains x.path)) =
      if missing.contains d.path = true then
        ds.filter (fun x => !(missing.contains x.path))
      else d :: ds.filter (fun x => !(missing.contains x.path)) := by
  cases h : missing.contains d.path with
  | false =>
    have hm : d.path ∉ missing := fun hmem => by
      have ht : missing.contains d.path = true := List.elem_iff.mpr hmem
      rw [ht] at h
      cases h
    simp [List.filter_cons, h, hm]
  | true =>
    have hm : d.path ∈ missing := List.elem_iff.mp h
    simp [List.filter_cons, h, hm]

/-- Filtering out missing paths does not affect the documents of a
non-missing path. -/
theorem filter_not_missing (idx : List Doc) (missing : List String) (p : String)
    (hp : p ∉ missing) :
    (idx.filter (fun d => !(missing.contains d.path))).filter (fun d => d.path == p) =
      idx.filter (fun d => d.path == p) := by
  induction idx with
  | nil => rfl
  | cons d ds ih =>
    rw [filter_missing_cons]
    by_cases hdm : missing.contains d.path = true
    · rw [if_pos hdm]
      have hdp : ¬ d.path = p := fun he => hp (he ▸ List.elem_iff.mp hdm)
      rw [filter_path_cons, if_neg hdp]
      exact ih
    · rw [if_neg hdm, filter_path_cons, filter_path_cons]
      by_cases hdp : d.path = p
      · rw [if_pos hdp, if_pos hdp, ih]
      · rw [if_neg hdp, if_neg hdp]
        exact ih

/-- Per-path effect of a whole `reload` on a freshly hashed path. -/
theorem reload_views_mem (st : EngineState) (hashes : List (String × String))
    (r : String → Option (List String)) (p h : String)
    (hnd : (hashes.map Prod.fst).Nodup) (hp : alookup hashes p = some h) :
    hashAt (reload st hashes r).1 p = some h ∧
    linesAt (reload st hashes r).1 p =
      (if should_update st.file_hashes p h = true then
         (match r p with
          | some ls => some ls
          | none => linesAt st p)
       else linesAt st p) ∧
    docsAt (reload st hashes r).1 p =
      (if should_update st.file_hashes p h = true then
         (match r p with
          | some ls => docsAt st p ++ docsFor p ls
          | none => docsAt st p)
       else docsAt st p) := by
  have hmem : p ∈ hashes.map Prod.fst := mem_keys_of_alookup _ _ _ hp
  have hpm : p ∉ missingFiles st.file_hashes hashes := by
    intro hc
    exact ((mem_missingFiles_iff _ _ _).mp hc).2 hmem
  have hloop := reloadLoop_mem r hashes st p h hnd hp
  refine ⟨?_, ?_, ?_⟩
  · show alookup (eraseAll (reloadLoop r st hashes).1.file_hashes
      (missingFiles st.file_hashes hashes)) p = some h
    rw [alookup_eraseAll, if_neg hpm]
    exact hloop.1
  · show alookup (eraseAll (reloadLoop r st hashes).1.lines_map
      (missingFiles st.file_hashes hashes)) p = _
    rw [alookup_eraseAll, if_neg hpm]
    exact hloop.2.1
  · show ((reloadLoop r st hashes).1.index.filter
      (fun d => !((missingFiles st.file_hashes hashes).contains d.path))).filter
      (fun d => d.path == p) = _
    rw [filter_not_missing _ _ _ hpm]
    exact hloop.2.2

/-- When every fresh hash is already recorded, the add/update loop is the
identity and adds nothing. -/
theorem reloadLoop_all_unchanged (r : String → Option (List String))
    (hs : List (String × String)) (st : EngineState)
    (hall : ∀ ph ∈ hs, alookup st.file_hashes ph.1 = some ph.2) :
    reloadLoop r st hs = (st, []) := by
  revert hall
  induction hs with
  | nil => exact fun _ => rfl
  | cons qg rest ih =>
    intro hall
    rcases qg with ⟨q, g⟩
    have hsu : should_update st.file_hashes q g = false :=
      (should_update_eq_false_iff _ _ _).mpr (hall (q, g) (by simp))
    rw [reloadLoop_cons_skip r st q g rest hsu]
    exact ih (fun ph hm => hall ph (by simp [hm]))

/-- The add/update loop only ever adds keys that are freshly hashed. -/
theorem reloadLoop_fh_isSome (r : String → Option (List String))
    (hs : List (String × String)) (st : EngineState) (p : String)
    (hh : (alookup (reloadLoop r st hs).1.file_hashes p).isSome = true) :
    (alookup st.file_hashes p).isSome = true ∨ p ∈ hs.map Prod.fst := by
  revert hh
  induction hs generalizing st with
  | nil => exact fun hh => Or.inl hh
  | cons qg rest ih =>
    intro hh
    rcases qg with ⟨q, g⟩
    by_cases hq : q = p
    · right
      simp [hq]
    · have hstep : ∀ st2 : EngineState,
          alookup st2.file_hashes p = alookup (ainsert st.file_hashes q g) p →
          (alookup (reloadLoop r st2 rest).1.file_hashes p).isSome = true →
          (alookup st.file_hashes p).isSome = true ∨ p ∈ ((q, g) :: rest).map Prod.fst := by
        intro st2 heq hh2
        rcases ih st2 hh2 with hold | hmem
        · rw [heq, alookup_ainsert] at hold
          rw [if_neg hq] at hold
          exact Or.inl hold
        · right
          simp [hmem]
      cases hsu : should_update st.file_hashes q g with
      | false =>
        rw [reloadLoop_cons_skip r st q g rest hsu] at hh
        rcases ih st hh with hold | hmem
        · exact Or.inl hold
        · right
          simp [hmem]
      | true =>
        rcases hr : r q with _ | ls
        · rw [reloadLoop_cons_fail r st q g rest hsu hr] at hh
          exact hstep _ rfl hh
        · rw [reloadLoop_cons_read r st q g rest ls hsu hr] at hh
          exact hstep _ rfl hh

/-- After a `reload`, every recorded fingerprint key is a freshly hashed
path (stale keys were erased as missing). -/
theorem reload_fh_keys (st : EngineState) (hashes : List (String × String))
    (r : String → Option (List String)) (p : String)
    (hh : (alookup (reload st hashes r).1.file_hashes p).isSome = true) :
    p ∈ hashes.map Prod.fst := by
  have heq : alookup (reload st hashes r).1.file_hashes p =
      alookup (eraseAll (reloadLoop r st hashes).1.file_hashes
        (missingFiles st.file_hashes hashes)) p := rfl
  rw [heq, alookup_eraseAll] at hh
  by_cases hpm : p ∈ missingFiles st.file_hashes hashes
  · rw [if_pos hpm] at hh
    simp at hh
  · rw [if_neg hpm] at hh
    rcases reloadLoop_fh_isSome r hashes st p hh with hold | hmem
    · have hpo : p ∈ st.file_hashes.map Prod.fst := (alookup_isSome_iff _ _).mp hold
      by_contra hnc
      exact hpm ((mem_missingFiles_iff _ _ _).mpr ⟨hpo, hnc⟩)
    · exact hmem

/-- When every previously recorded path is freshly hashed, nothing is
missing. -/
theorem missingFiles_eq_nil (old hashes : List (String × String))
    (hsub : ∀ p ∈ old.map Prod.fst, p ∈ hashes.map Prod.fst) :
    missingFiles old hashes = [] := by
  refine List.filter_eq_nil_iff.mpr ?_
  intro p hp hc
  have hcc : (hashes.map Prod.fst).contains p = true :=
    List.elem_iff.mpr (hsub p hp)
  rw [hcc] at hc
  exact Bool.noConfusion hc

/-- Deleting an empty set of missing paths keeps every document. -/
theorem filter_missing_nil (idx : List Doc) :
    idx.filter (fun d => !(([] : List String).contains d.path)) = idx := by
  induction idx with
  | nil => rfl
  | cons d ds ih => simp [List.filter_cons, ih]

/-- Inversion of a successful snippet computation: the path is cached, the
line is within bounds, and the reported range is the clamped window. -/
theorem read_lines_ok_some (lm : List (String × List String)) (p : String)
    (line n : Nat) (snip : String) (s e : Nat)
    (h : read_lines lm p line n = Except.ok (some (snip, s, e))) :
    ∃ ls, alookup lm p = some ls ∧ 1 ≤ line ∧ line ≤ ls.length ∧
      s = line - 1 - n + 1 ∧ e = min (line - 1 + n) (ls.length - 1) + 1 := by
  simp only [read_lines] at h
  split at h
  · exact absurd h (by simp)
  · rename_i ls heq
    split at h
    · exact absurd h (by simp)
    · rename_i hgt
      split at h
      · exact absurd h (by simp)
      · rename_i h0
        split at h
        · rename_i hg
          simp only [Except.ok.injEq, Option.some.injEq, Prod.mk.injEq] at h
          obtain ⟨hsnip, hs, he⟩ := h
          exact ⟨ls, heq, by omega, by omega, hs.symm, he.symm⟩
        · exact absurd h (by simp)

/-- Inversion of a silently dropped match: the path is uncached or the line
is beyond the cached line count. -/
theorem read_lines_ok_none (lm : List (String × List String)) (p : String)
    (line n : Nat) (h : read_lines lm p line n = Except.ok none) :
    alookup lm p = none ∨ ∃ ls, alookup lm p = some ls ∧ ls.length < line := by
  simp only [read_lines] at h
  split at h
  · rename_i heq
    exact Or.inl heq
  · rename_i ls heq
    split at h
    · rename_i hgt
      exact Or.inr ⟨ls, heq, hgt⟩
    · split at h
      · exact absurd h (by simp)
      · split at h
        · exact absurd h (by simp)
        · exact absurd h (by simp)

/-- A dropped match never passes the keep test. -/
theorem keepDoc_false_of_ok_none (lm : List (String × List String)) (d : Doc)
    (h : read_lines lm d.path d.line 3 = Except.ok none) :
    keepDoc lm d = false := by
  rcases read_lines_ok_none _ _ _ _ h with hnone | ⟨ls, hls, hlt⟩
  · simp [keepDoc, hnone]
  · simp only [keepDoc, hls]
    rw [decide_eq_false_iff_not]
    omega

/-- A surviving match always passes the keep test. -/
theorem keepDoc_true_of_ok_some (lm : List (String × List String)) (d : Doc)
    (snip : String) (s e : Nat)
    (h : read_lines lm d.path d.line 3 = Except.ok (some (snip, s, e))) :
    keepDoc lm d = true := by
  obtain ⟨ls, hls, h1, h2, _, _⟩ := read_lines_ok_some lm d.path d.line 3 snip s e h
  simp only [keepDoc, hls]
  rw [decide_eq_true_eq]
  exact ⟨h1, h2⟩

/-- Every collected search result stems from a matched document whose
snippet computation succeeded. -/
theorem collectResults_mem (lm : List (String × List String)) (ds : List Doc)
    (rs : List SearchResult) (h : collectResults lm ds = Except.ok rs) :
    ∀ r2 ∈ rs, ∃ d, d ∈ ds ∧ r2.path = d.path ∧ r2.line = d.line ∧
      read_lines lm d.path d.line 3 =
        Except.ok (some (r2.body, r2.range_start, r2.range_end)) := by
  revert h
  induction ds generalizing rs with
  | nil =>
    intro h r2 hr2
    simp only [collectResults] at h
    injection h with h2
    rw [← h2] at hr2
    simp at hr2
  | cons d ds ih =>
    intro h r2 hr2
    simp only [collectResults] at h
    split at h
    · exact absurd h (by simp)
    · obtain ⟨d2, hd2, hrest⟩ := ih rs h r2 hr2
      exact ⟨d2, List.mem_cons_of_mem d hd2, hrest⟩
    · rename_i snip s e hrl
      split at h
      · exact absurd h (by simp)
      · rename_i rest hrec
        injection h with h2
        rw [← h2] at hr2
        rcases List.mem_cons.mp hr2 with heqr | hmem
        · subst heqr
          exact ⟨d, List.mem_cons_self d ds, rfl, rfl, hrl⟩
        · obtain ⟨d2, hd2, hrest⟩ := ih rest hrec r2 hmem
          exact ⟨d2, List.mem_cons_of_mem d hd2, hrest⟩

/-- The number of collected results equals the number of matched documents
that pass the keep test. -/
theorem collectResults_count (lm : List (String × List String)) (ds : List Doc)
    (rs : List SearchResult) (h : collectResults lm ds = Except.ok rs) :
    rs.length = (ds.filter (keepDoc lm)).length := by
  revert h
  induction ds generalizing rs with
  | nil =>
    intro h
    simp only [collectResults] at h
    injection h with h2
    rw [← h2]
    rfl
  | cons d ds ih =>
    intro h
    simp only [collectResults] at h
    split at h
    · exact absurd h (by simp)
    · rename_i hrl
      have hk : ¬ keepDoc lm d = true := by
        simp [keepDoc_false_of_ok_none lm d hrl]
      rw [List.filter_cons_of_neg hk]
      exact ih rs h
    · rename_i snip s e hrl
      split at h
      · exact absurd h (by simp)
      · rename_i rest hrec
        injection h with h2
        rw [← h2]
        rw [List.filter_cons_of_pos (keepDoc_true_of_ok_some lm d snip s e hrl)]
        simp [ih rest hrec]

/-- Unfolding of the path-exclusion filter over a cons. -/
theorem filter_ne_cons (a p : String) (rest : List String) :
    (a :: rest).filter (fun q => !(q == p)) =
      if a = p then rest.filter (fun q => !(q == p))
      else a :: rest.filter (fun q => !(q == p)) := by
  by_cases h : a = p <;> simp [List.filter_cons, h]

/-- Lookup in the checksum-collection fold: a scanned path maps to its
checksum when hashing succeeded, and to the accumulator entry otherwise. -/
theorem hashStep_foldl_lookup (cs : String → Option String) (paths : List String)
    (acc : List (String × String)) (p : String) :
    alookup (paths.foldl (hashStep cs) acc) p =
      if p ∈ paths ∧ (cs p).isSome = true then cs p else alookup acc p := by
  induction paths generalizing acc with
  | nil => simp
  | cons a rest ih =>
    show alookup (rest.foldl (hashStep cs) (hashStep cs acc a)) p = _
    rw [ih]
    by_cases hpr : p ∈ rest ∧ (cs p).isSome = true
    · rw [if_pos hpr, if_pos ⟨List.mem_cons_of_mem a hpr.1, hpr.2⟩]
    · rw [if_neg hpr]
      by_cases hap : a = p
      · subst hap
        rcases hcs : cs a with _ | hv
        · show alookup (hashStep cs acc a) a = _
          rw [if_neg (fun hc => Bool.noConfusion hc.2)]
          simp only [hashStep, hcs]
        · show alookup (hashStep cs acc a) a = _
          rw [if_pos ⟨List.mem_cons_self a rest, rfl⟩]
          simp only [hashStep, hcs]
          rw [alookup_ainsert, if_pos rfl]
      · have hstep : alookup (hashStep cs acc a) p = alookup acc p := by
          simp only [hashStep]
          rcases cs a with _ | hv
          · rfl
          · rw [alookup_ainsert, if_neg hap]
        rw [hstep, if_neg (fun hc => hpr
          ⟨(List.mem_cons.mp hc.1).resolve_left (fun he => hap he.symm), hc.2⟩)]

/-- A path whose checksum fails can be dropped from the scan without
changing the collected map. -/
theorem hashStep_foldl_skip (cs : String → Option String) (p : String)
    (hcs : cs p = none) (paths : List String) (acc : List (String × String)) :
    paths.foldl (hashStep cs) acc =
      (paths.filter (fun q => !(q == p))).foldl (hashStep cs) acc := by
  induction paths generalizing acc with
  | nil => rfl
  | cons a rest ih =>
    rw [filter_ne_cons]
    by_cases hap : a = p
    · subst hap
      rw [if_pos rfl]
      show rest.foldl (hashStep cs) (hashStep cs acc a) = _
      have hfa : hashStep cs acc a = acc := by
        simp only [hashStep, hcs]
      rw [hfa]
      exact ih acc
    · rw [if_neg hap]
      show rest.foldl (hashStep cs) (hashStep cs acc a) = _
      exact ih (hashStep cs acc a)

/-! Claim theorems. -/

/-- C1: the claim states that during a resync every added-or-modified path
has all of its prior IndexedLine documents deleted before the new ones are
added, so that an old-content query returns zero hits.  The code performs no
such deletion: starting from `a.txt` containing the line `old`, changing it
to `new` and resyncing leaves the stale document live, and a query matching
only the old content returns one hit for that path instead of zero (a query
matching the new content does return exactly one hit at line 1). -/
theorem spec_c1_stale_docs_remain :
    docsAt stNew "a.txt" =
      [{ path := "a.txt", line := 1, body := "old" },
       { path := "a.txt", line := 1, body := "new" }] ∧
    search stNew (fun d => d.body == "old") =
      Except.ok [{ body := "new", path := "a.txt", line := 1,
                   range_start := 1, range_end := 1 }] ∧
    search stNew (fun d => d.body == "new") =
      Except.ok [{ body := "new", path := "a.txt", line := 1,
                   range_start := 1, range_end := 1 }] :=
  ⟨rfl, rfl, rfl⟩

/-- C2: invariant I2 demands that a tracked path have as many live
IndexedLine documents as cached lines.  In the reachable state `stNew`
(initial build over `a.txt` = `old`, then one resync after the content
changed to `new`) the path has two live documents but a one-line cache
entry, so the invariant is violated by the code. -/
theorem spec_c2_invariant_violated :
    (docsAt stNew "a.txt").length = 2 ∧
    linesAt stNew "a.txt" = some ["new"] ∧
    ¬ (docsAt stNew "a.txt").length = ((linesAt stNew "a.txt").getD []).length := by
  refine ⟨rfl, rfl, ?_⟩
  decide

/-- C3 counterexample: the claim says a failing re-read leaves the recorded
fingerprint unchanged, but `reload` records the fresh fingerprint before
attempting to open the file, so after a failing read the fingerprint has
moved from `h1` to `h2`. -/
theorem spec_c3_counterexample :
    hashAt stOld "a.txt" = some "h1" ∧
    hashAt (reload stOld [("a.txt", "h2")] (fun _ => none)).1 "a.txt" = some "h2" ∧
    ¬ (some "h2" : Option String) = some "h1" := by
  refine ⟨rfl, rfl, ?_⟩
  decide

/-- C3 (amended): if re-reading an added-or-modified path fails, its
LineCache entry and its IndexedLine documents are unchanged by the cycle,
while its recorded fingerprint is replaced by the freshly computed hash
(the hash update happens before the open attempt). -/
theorem spec_c3_failed_read_keeps_cache_and_docs
    (st : EngineState) (hashes : List (String × String))
    (r : String → Option (List String)) (p h : String)
    (hnd : (hashes.map Prod.fst).Nodup) (hp : alookup hashes p = some h)
    (hr : r p = none) :
    hashAt (reload st hashes r).1 p = some h ∧
    linesAt (reload st hashes r).1 p = linesAt st p ∧
    docsAt (reload st hashes r).1 p = docsAt st p := by
  obtain ⟨h1, h2, h3⟩ := reload_views_mem st hashes r p h hnd hp
  refine ⟨h1, ?_, ?_⟩
  · rw [h2, hr]
    split <;> rfl
  · rw [h3, hr]
    split <;> rfl

/-- Witness for C3 at a concrete failing read. -/
theorem spec_c3_witness :
    (([("a.txt", "h2")].map Prod.fst).Nodup ∧
      alookup [("a.txt", "h2")] "a.txt" = some "h2" ∧
      (fun _ : String => (none : Option (List String))) "a.txt" = none) ∧
    (hashAt (reload stOld [("a.txt", "h2")] (fun _ => none)).1 "a.txt" = some "h2" ∧
     linesAt (reload stOld [("a.txt", "h2")] (fun _ => none)).1 "a.txt" =
       linesAt stOld "a.txt" ∧
     docsAt (reload stOld [("a.txt", "h2")] (fun _ => none)).1 "a.txt" =
       docsAt stOld "a.txt") :=
  ⟨⟨by decide, rfl, rfl⟩,
   spec_c3_failed_read_keeps_cache_and_docs stOld [("a.txt", "h2")]
     (fun _ => none) "a.txt" "h2" (by decide) rfl rfl⟩

/-- C4 counterexample: for a query that fails to parse the handler answers
with the literal `json!({"results": []})`, an object with no `time` field,
so the body does not have the claimed `{"results": [], "time": <float>}`
shape. -/
theorem spec_c4_counterexample :
    search_handler (engineSearchFull stEmpty (Except.error ()) 0) =
      Json.obj [("results", Json.arr [])] ∧
    jsonHasKey "time"
      (search_handler (engineSearchFull stEmpty (Except.error ()) 0)) = false ∧
    jsonHasKey "time" (jsonOfSearchResults { results := [], time := 0 }) = true :=
  ⟨rfl, rfl, rfl⟩

/-- C4 (amended): a query that fails to parse is answered with the success
body `{"results": []}` — with no `time` field — and never as a request
error, while a successfully parsed query with an empty result set is
answered with `{"results": [], "time": <elapsed>}`. -/
theorem spec_c4_parse_failure_empty_results
    (st : EngineState) (e : Unit) (t : Nat) (q : Doc → Bool)
    (hq : search st q = Except.ok []) :
    search_handler (engineSearchFull st (Except.error e) t) =
      Json.obj [("results", Json.arr [])] ∧
    jsonHasKey "time"
      (search_handler (engineSearchFull st (Except.error e) t)) = false ∧
    search_handler (engineSearchFull st (Except.ok q) t) =
      Json.obj [("results", Json.arr []), ("time", Json.num t)] := by
  refine ⟨rfl, rfl, ?_⟩
  show search_handler
      (match search st q with
       | Except.error e2 => Except.error e2
       | Except.ok rs => Except.ok { results := rs, time := t }) = _
  rw [hq]
  rfl

/-- Witness for C4 at the empty engine state. -/
theorem spec_c4_witness :
    (search stEmpty (fun _ => true) = Except.ok []) ∧
    (search_handler (engineSearchFull stEmpty (Except.error ()) 0) =
        Json.obj [("results", Json.arr [])] ∧
      jsonHasKey "time"
        (search_handler (engineSearchFull stEmpty (Except.error ()) 0)) = false ∧
      search_handler (engineSearchFull stEmpty (Except.ok (fun _ => true)) 0) =
        Json.obj [("results", Json.arr []), ("time", Json.num 0)]) :=
  ⟨rfl, spec_c4_parse_failure_empty_results stEmpty () 0 (fun _ => true) rfl⟩

/-- C5: running a resync again over the same fingerprint map performs no
Text Index mutations (no added documents, no deleted paths) and returns the
state — fingerprint map and LineCache included — literally unchanged; and
in any resync a path whose fresh fingerprint equals the recorded one is not
touched at all. -/
theorem spec_c5_resync_idempotent
    (st : EngineState) (hashes : List (String × String))
    (r r2 : String → Option (List String))
    (hnd : (hashes.map Prod.fst).Nodup) :
    reload (reload st hashes r).1 hashes r2 = ((reload st hashes r).1, [], []) ∧
    (∀ p h, alookup hashes p = some h → alookup st.file_hashes p = some h →
      hashAt (reload st hashes r).1 p = hashAt st p ∧
      linesAt (reload st hashes r).1 p = linesAt st p ∧
      docsAt (reload st hashes r).1 p = docsAt st p) := by
  constructor
  · set st1 := (reload st hashes r).1 with hst1
    have hall : ∀ ph ∈ hashes, alookup st1.file_hashes ph.1 = some ph.2 := by
      intro ph hm
      have hl : alookup hashes ph.1 = some ph.2 :=
        alookup_of_mem_nodup hashes ph.1 ph.2 hnd hm
      exact (reload_views_mem st hashes r ph.1 ph.2 hnd hl).1
    have hloop : reloadLoop r2 st1 hashes = (st1, []) :=
      reloadLoop_all_unchanged r2 hashes st1 hall
    have hsub : ∀ p ∈ st1.file_hashes.map Prod.fst, p ∈ hashes.map Prod.fst := by
      intro p hp
      exact reload_fh_keys st hashes r p ((alookup_isSome_iff _ _).mpr hp)
    have hmiss : missingFiles st1.file_hashes hashes = [] :=
      missingFiles_eq_nil _ _ hsub
    show ({ (reloadLoop r2 st1 hashes).1 with
        index := (reloadLoop r2 st1 hashes).1.index.filter
          (fun d => !((missingFiles st1.file_hashes hashes).contains d.path)),
        file_hashes := eraseAll (reloadLoop r2 st1 hashes).1.file_hashes
          (missingFiles st1.file_hashes hashes),
        lines_map := eraseAll (reloadLoop r2 st1 hashes).1.lines_map
          (missingFiles st1.file_hashes hashes) },
      (reloadLoop r2 st1 hashes).2, missingFiles st1.file_hashes hashes) =
      (st1, [], [])
    rw [hloop, hmiss, filter_missing_nil]
    rfl
  · intro p h hph hst
    have hsu : should_update st.file_hashes p h = false :=
      (should_update_eq_false_iff _ _ _).mpr hst
    obtain ⟨h1, h2, h3⟩ := reload_views_mem st hashes r p h hnd hph
    refine ⟨?_, ?_, ?_⟩
    · rw [h1]
      exact hst.symm
    · rw [h2, if_neg (by simp [hsu])]
    · rw [h3, if_neg (by simp [hsu])]

/-- Witness for C5 at a one-file tree with unchanged content. -/
theorem spec_c5_witness :
    ([("a.txt", "h1")].map Prod.fst).Nodup ∧
    (reload (reload stOld [("a.txt", "h1")] fsOld).1 [("a.txt", "h1")] fsOld =
        ((reload stOld [("a.txt", "h1")] fsOld).1, [], []) ∧
      (∀ p h, alookup [("a.txt", "h1")] p = some h →
          alookup stOld.file_hashes p = some h →
          hashAt (reload stOld [("a.txt", "h1")] fsOld).1 p = hashAt stOld p ∧
          linesAt (reload stOld [("a.txt", "h1")] fsOld).1 p = linesAt stOld p ∧
          docsAt (reload stOld [("a.txt", "h1")] fsOld).1 p = docsAt stOld p)) :=
  ⟨by decide, spec_c5_resync_idempotent stOld [("a.txt", "h1")] fsOld fsOld (by decide)⟩

/-- C6: a resync classifies every scanned-or-tracked path into exactly one
of the three disjoint classes: re-indexed iff freshly hashed with no equal
recorded fingerprint, removed iff previously recorded and not freshly
hashed, unchanged iff both maps record the same fingerprint — in
particular a path is unchanged iff its fresh fingerprint equals the
recorded one. -/
theorem spec_c6_classification (old cur : List (String × String)) (p : String)
    (hp : (alookup cur p).isSome = true ∨ (alookup old p).isSome = true) :
    (addedOrModified old cur p = true ↔
       ∃ h, alookup cur p = some h ∧ ¬ alookup old p = some h) ∧
    (removedClass old cur p = true ↔
       (alookup old p).isSome = true ∧ alookup cur p = none) ∧
    (unchangedClass old cur p = true ↔
       ∃ h, alookup cur p = some h ∧ alookup old p = some h) ∧
    (addedOrModified old cur p = true ∨ removedClass old cur p = true ∨
       unchangedClass old cur p = true) ∧
    ¬ (addedOrModified old cur p = true ∧ removedClass old cur p = true) ∧
    ¬ (addedOrModified old cur p = true ∧ unchangedClass old cur p = true) ∧
    ¬ (removedClass old cur p = true ∧ unchangedClass old cur p = true) := by
  have hrem : removedClass old cur p = true ↔
      (alookup old p).isSome = true ∧ alookup cur p = none := by
    unfold removedClass
    constructor
    · intro hc
      have hm := (mem_missingFiles_iff old cur p).mp (List.elem_iff.mp hc)
      exact ⟨(alookup_isSome_iff _ _).mpr hm.1, (alookup_eq_none_iff _ _).mpr hm.2⟩
    · intro hoc
      exact List.elem_iff.mpr ((mem_missingFiles_iff old cur p).mpr
        ⟨(alookup_isSome_iff _ _).mp hoc.1, (alookup_eq_none_iff _ _).mp hoc.2⟩)
  have hA : addedOrModified old cur p = true ↔
      ∃ h, alookup cur p = some h ∧ ¬ alookup old p = some h := by
    rcases hcur : alookup cur p with _ | hv
    · simp [addedOrModified, hcur]
    · simp only [addedOrModified, hcur, Option.some_inj]
      constructor
      · intro hsu
        refine ⟨hv, rfl, fun hold => ?_⟩
        rw [(should_update_eq_false_iff old p hv).mpr hold] at hsu
        cases hsu
      · rintro ⟨h2, hh2, hnold⟩
        subst hh2
        cases hsu2 : should_update old p hv with
        | false => exact absurd ((should_update_eq_false_iff old p hv).mp hsu2) hnold
        | true => rfl
  have hU : unchangedClass old cur p = true ↔
      ∃ h, alookup cur p = some h ∧ alookup old p = some h := by
    rcases hcur : alookup cur p with _ | hv
    · simp [unchangedClass, hcur]
    · simp only [unchangedClass, hcur, Option.some_inj]
      constructor
      · intro hnu
        have hsu : should_update old p hv = false := by
          cases hsu2 : should_update old p hv with
          | false => rfl
          | true =>
            rw [hsu2] at hnu
            cases hnu
        exact ⟨hv, rfl, (should_update_eq_false_iff _ _ _).mp hsu⟩
      · rintro ⟨h2, hh2, hold⟩
        subst hh2
        rw [(should_update_eq_false_iff old p hv).mpr hold]
        rfl
  refine ⟨hA, hrem, hU, ?_, ?_, ?_, ?_⟩
  · rcases hcur : alookup cur p with _ | hv
    · rcases hp with hinc | hino
      · rw [hcur] at hinc
        cases hinc
      · exact Or.inr (Or.inl (hrem.mpr ⟨hino, hcur⟩))
    · cases hsu2 : should_update old p hv with
      | false =>
        refine Or.inr (Or.inr (hU.mpr ⟨hv, hcur, ?_⟩))
        exact (should_update_eq_false_iff _ _ _).mp hsu2
      | true =>
        refine Or.inl (hA.mpr ⟨hv, hcur, fun hold => ?_⟩)
        rw [(should_update_eq_false_iff old p hv).mpr hold] at hsu2
        cases hsu2
  · rintro ⟨ha2, hr2⟩
    obtain ⟨h2, hh2, _⟩ := hA.mp ha2
    obtain ⟨_, hn⟩ := hrem.mp hr2
    rw [hn] at hh2
    cases hh2
  · rintro ⟨ha2, hu2⟩
    obtain ⟨h2, hh2, hnold⟩ := hA.mp ha2
    obtain ⟨h3, hh3, hold⟩ := hU.mp hu2
    rw [hh2] at hh3
    injection hh3 with hh4
    rw [← hh4] at hold
    exact hnold hold
  · rintro ⟨hr2, hu2⟩
    obtain ⟨_, hn⟩ := hrem.mp hr2
    obtain ⟨h3, hh3, _⟩ := hU.mp hu2
    rw [hn] at hh3
    cases hh3

/-- Witness for C6 on concrete maps: a path present in both with a changed
fingerprint. -/
theorem spec_c6_witness :
    ((alookup [("a.txt", "h2")] "a.txt").isSome = true ∨
      (alookup [("a.txt", "h1")] "a.txt").isSome = true) ∧
    ((addedOrModified [("a.txt", "h1")] [("a.txt", "h2")] "a.txt" = true ↔
       ∃ h, alookup [("a.txt", "h2")] "a.txt" = some h ∧
         ¬ alookup [("a.txt", "h1")] "a.txt" = some h) ∧
     (removedClass [("a.txt", "h1")] [("a.txt", "h2")] "a.txt" = true ↔
       (alookup [("a.txt", "h1")] "a.txt").isSome = true ∧
         alookup [("a.txt", "h2")] "a.txt" = none) ∧
     (unchangedClass [("a.txt", "h1")] [("a.txt", "h2")] "a.txt" = true ↔
       ∃ h, alookup [("a.txt", "h2")] "a.txt" = some h ∧
         alookup [("a.txt", "h1")] "a.txt" = some h) ∧
     (addedOrModified [("a.txt", "h1")] [("a.txt", "h2")] "a.txt" = true ∨
       removedClass [("a.txt", "h1")] [("a.txt", "h2")] "a.txt" = true ∨
       unchangedClass [("a.txt", "h1")] [("a.txt", "h2")] "a.txt" = true) ∧
     ¬ (addedOrModified [("a.txt", "h1")] [("a.txt", "h2")] "a.txt" = true ∧
       removedClass [("a.txt", "h1")] [("a.txt", "h2")] "a.txt" = true) ∧
     ¬ (addedOrModified [("a.txt", "h1")] [("a.txt", "h2")] "a.txt" = true ∧
       unchangedClass [("a.txt", "h1")] [("a.txt", "h2")] "a.txt" = true) ∧
     ¬ (removedClass [("a.txt", "h1")] [("a.txt", "h2")] "a.txt" = true ∧
       unchangedClass [("a.txt", "h1")] [("a.txt", "h2")] "a.txt" = true)) :=
  ⟨Or.inl rfl, spec_c6_classification [("a.txt", "h1")] [("a.txt", "h2")] "a.txt"
    (Or.inl rfl)⟩

/-- C7: every search hit's snippet range is the 3-line context window
clamped to the file's cached bounds: start = max 1 (line−3) and
end = min (line+3) total, both inside [1, total] with start ≤ line ≤ end;
a hit on line 1 has start 1 and a hit on the last line has end = total. -/
theorem spec_c7_snippet_bounds (st : EngineState) (q : Doc → Bool)
    (rs : List SearchResult) (res : SearchResult)
    (hs : search st q = Except.ok rs) (hmem : res ∈ rs) :
    ∃ ls, alookup st.lines_map res.path = some ls ∧
      res.range_start = max 1 (res.line - 3) ∧
      res.range_end = min (res.line + 3) ls.length ∧
      1 ≤ res.range_start ∧ res.range_start ≤ res.line ∧
      res.line ≤ res.range_end ∧ res.range_end ≤ ls.length ∧
      (res.line = 1 → res.range_start = 1) ∧
      (res.line = ls.length → res.range_end = ls.length) := by
  obtain ⟨d, hd, hpath, hline, hrl⟩ := collectResults_mem st.lines_map
    (st.index.filter q) rs hs res hmem
  obtain ⟨ls, hls, h1, h2, hstart, hend⟩ :=
    read_lines_ok_some st.lines_map d.path d.line 3
      res.body res.range_start res.range_end hrl
  refine ⟨ls, by rw [hpath]; exact hls, ?_, ?_, ?_, ?_, ?_, ?_, ?_, ?_⟩
  · rw [hstart, hline]
    omega
  · rw [hend, hline]
    omega
  · rw [hstart]
    omega
  · rw [hstart, hline]
    omega
  · rw [hend, hline]
    omega
  · rw [hend]
    omega
  · intro hl1
    rw [hline] at hl1
    rw [hstart]
    omega
  · intro hle
    rw [hline] at hle
    rw [hend]
    omega

/-- Witness for C7: the hit on line 1 of the one-line `a.txt`. -/
theorem spec_c7_witness :
    (search stOld (fun d => d.body == "old") = Except.ok [resW] ∧ resW ∈ [resW]) ∧
    (∃ ls, alookup stOld.lines_map resW.path = some ls ∧
      resW.range_start = max 1 (resW.line - 3) ∧
      resW.range_end = min (resW.line + 3) ls.length ∧
      1 ≤ resW.range_start ∧ resW.range_start ≤ resW.line ∧
      resW.line ≤ resW.range_end ∧ resW.range_end ≤ ls.length ∧
      (resW.line = 1 → resW.range_start = 1) ∧
      (resW.line = ls.length → resW.range_end = ls.length)) :=
  ⟨⟨rfl, by decide⟩,
   spec_c7_snippet_bounds stOld (fun d => d.body == "old") [resW] resW rfl
     (by decide)⟩

/-- C9: under a successful search, a match whose path is cached but whose
line exceeds the cached line count produces no result: the result count
equals the number of matching documents that pass the keep test (path
cached and 1 ≤ line ≤ cached length), and every produced result satisfies
those bounds. -/
theorem spec_c9_out_of_range_dropped (st : EngineState) (q : Doc → Bool)
    (rs : List SearchResult) (hs : search st q = Except.ok rs) :
    rs.length = ((st.index.filter q).filter (keepDoc st.lines_map)).length ∧
    (∀ res ∈ rs, ∃ ls, alookup st.lines_map res.path = some ls ∧
      1 ≤ res.line ∧ res.line ≤ ls.length) := by
  constructor
  · exact collectResults_count st.lines_map (st.index.filter q) rs hs
  · intro res hmem
    obtain ⟨d, hd, hpath, hline, hrl⟩ := collectResults_mem st.lines_map
      (st.index.filter q) rs hs res hmem
    obtain ⟨ls, hls, h1, h2, _, _⟩ :=
      read_lines_ok_some st.lines_map d.path d.line 3
        res.body res.range_start res.range_end hrl
    exact ⟨ls, by rw [hpath]; exact hls, by rw [hline]; exact h1,
      by rw [hline]; exact h2⟩

/-- Witness for C9: after `a.txt` shrank from two lines to one, the stale
line-2 document matches the query but is silently dropped, so the search
returns no results. -/
theorem spec_c9_witness :
    (search stTwoNew (fun d => d.body == "old2") = Except.ok []) ∧
    (([] : List SearchResult).length =
        ((stTwoNew.index.filter (fun d => d.body == "old2")).filter
          (keepDoc stTwoNew.lines_map)).length ∧
      (∀ res ∈ ([] : List SearchResult),
        ∃ ls, alookup stTwoNew.lines_map res.path = some ls ∧
          1 ≤ res.line ∧ res.line ≤ ls.length)) :=
  ⟨rfl, spec_c9_out_of_range_dropped stTwoNew (fun d => d.body == "old2") [] rfl⟩

/-- C10: with a cached path and 1 ≤ line ≤ cached length the snippet
computation is total: the subtractions cannot underflow, the slice bounds
satisfy start ≤ end < total, and `read_lines` returns `Some` instead of
panicking. -/
theorem spec_c10_read_lines_total (lm : List (String × List String))
    (p : String) (ls : List String) (line n : Nat)
    (hls : alookup lm p = some ls) (h1 : 1 ≤ line) (h2 : line ≤ ls.length) :
    line - 1 - n ≤ min (line - 1 + n) (ls.length - 1) ∧
    min (line - 1 + n) (ls.length - 1) < ls.length ∧
    ∃ out, read_lines lm p line n = Except.ok (some out) := by
  have hb1 : line - 1 - n ≤ min (line - 1 + n) (ls.length - 1) := by omega
  have hb2 : min (line - 1 + n) (ls.length - 1) < ls.length := by omega
  refine ⟨hb1, hb2,
    ⟨(String.intercalate "\n" ((ls.drop (line - 1 - n)).take
        (min (line - 1 + n) (ls.length - 1) + 1 - (line - 1 - n))),
      line - 1 - n + 1, min (line - 1 + n) (ls.length - 1) + 1), ?_⟩⟩
  simp only [read_lines, hls]
  rw [if_neg (by omega), if_neg (by omega), if_pos ⟨hb2, by omega⟩]

/-- Witness for C10 on a two-line file at line 2. -/
theorem spec_c10_witness :
    (alookup [("a.txt", ["l1", "l2"])] "a.txt" = some ["l1", "l2"] ∧
      1 ≤ 2 ∧ 2 ≤ (["l1", "l2"] : List String).length) ∧
    (2 - 1 - 3 ≤ min (2 - 1 + 3) ((["l1", "l2"] : List String).length - 1) ∧
      min (2 - 1 + 3) ((["l1", "l2"] : List String).length - 1) <
        (["l1", "l2"] : List String).length ∧
      ∃ out, read_lines [("a.txt", ["l1", "l2"])] "a.txt" 2 3 =
        Except.ok (some out)) :=
  ⟨⟨rfl, by decide, by decide⟩,
   spec_c10_read_lines_total [("a.txt", ["l1", "l2"])] "a.txt" ["l1", "l2"] 2 3
     rfl (by decide) (by decide)⟩

/-- C8: the collected fingerprint map has an entry exactly for each scanned
path whose hashing succeeded; a path whose hashing fails is excluded, and
the collected map is identical to the one for a scan that never saw that
path — making the failure indistinguishable from a deletion for the diff. -/
theorem spec_c8_failed_hash_excluded (paths : List String)
    (cs : String → Option String) (p : String) (hcs : cs p = none) :
    (∀ q2 : String, alookup (get_file_hashes paths cs) q2 =
        (if q2 ∈ paths ∧ (cs q2).isSome = true then cs q2 else none)) ∧
    get_file_hashes paths cs =
      get_file_hashes (paths.filter (fun q2 => !(q2 == p))) cs ∧
    alookup (get_file_hashes paths cs) p = none := by
  refine ⟨?_, ?_, ?_⟩
  · intro q2
    show alookup (paths.foldl (hashStep cs) []) q2 = _
    rw [hashStep_foldl_lookup]
    rfl
  · show paths.foldl (hashStep cs) [] = _
    exact hashStep_foldl_skip cs p hcs paths []
  · show alookup (paths.foldl (hashStep cs) []) p = _
    rw [hashStep_foldl_lookup,
      if_neg (fun hc => by
        rw [hcs] at hc
        exact Bool.noConfusion hc.2)]
    rfl

/-- Witness for C8: scanning two paths where hashing fails on one. -/
theorem spec_c8_witness :
    csW "bad.txt" = none ∧
    ((∀ q2, alookup (get_file_hashes ["a.txt", "bad.txt"] csW) q2 =
        (if q2 ∈ ["a.txt", "bad.txt"] ∧ (csW q2).isSome = true then csW q2
         else none)) ∧
      get_file_hashes ["a.txt", "bad.txt"] csW =
        get_file_hashes ((["a.txt", "bad.txt"] : List String).filter
          (fun q2 => !(q2 == "bad.txt"))) csW ∧
      alookup (get_file_hashes ["a.txt", "bad.txt"] csW) "bad.txt" = none) :=
  ⟨by decide,
   spec_c8_failed_hash_excluded ["a.txt", "bad.txt"] csW "bad.txt" (by decide)⟩
